import Mathlib

/-!
Shallow embedding of the store-link cleaning pipeline of this repository
(dedup_por_tienda.py, extraer_tienda_links.py, app_links.py): link-column
autodetection, row cleaning, deduplication of (store, link) pairs, grouping
of links by store, the one-link-per-store table, the reported average of
unique links per store, the workbook URL extraction rules, and the store-set
comparison, together with proofs of the specified properties.

Strings are Lean strings; missing spreadsheet cells (pandas NaN, openpyxl
None) are the `none` of an `Option`; a pandas DataFrame is a list of columns,
each a column name together with its list of stringified values; errors
raised by the scripts are the `none` result of an `Option`.
-/

/-- Keep-first removal of duplicates relative to an accumulator of already
seen values: an element is kept exactly when it occurs neither in `seen` nor
earlier in the list.  This is how pandas `drop_duplicates` and
`Series.unique` treat repeated values. -/
def dropSeen {α : Type} [DecidableEq α] (seen : List α) : List α → List α
  | [] => []
  | x :: rest => if x ∈ seen then dropSeen seen rest else x :: dropSeen (x :: seen) rest

/-- pandas `drop_duplicates` / `Series.unique` on a list of values: keeps the
first occurrence of each value, in order. -/
def drop_duplicates {α : Type} [DecidableEq α] (l : List α) : List α := dropSeen [] l

theorem mem_dropSeen {α : Type} [DecidableEq α] (seen : List α) (l : List α) (x : α) :
    x ∈ dropSeen seen l ↔ x ∈ l ∧ x ∉ seen := by
  induction l generalizing seen with
  | nil => simp [dropSeen]
  | cons y rest ih =>
    by_cases hy : y ∈ seen
    · simp only [dropSeen, if_pos hy, ih, List.mem_cons]
      constructor
      · rintro ⟨hx, hns⟩; exact ⟨Or.inr hx, hns⟩
      · rintro ⟨hx | hx, hns⟩
        · exact absurd (hx ▸ hy) hns
        · exact ⟨hx, hns⟩
    · simp only [dropSeen, if_neg hy, List.mem_cons, ih, List.mem_cons]
      constructor
      · rintro (rfl | ⟨hx, hns⟩)
        · exact ⟨Or.inl rfl, hy⟩
        · exact ⟨Or.inr hx, fun hs => hns (Or.inr hs)⟩
      · rintro ⟨hx | hx, hns⟩
        · exact Or.inl hx
        · by_cases hxy : x = y
          · exact Or.inl hxy
          · exact Or.inr ⟨hx, fun hs => by
              rcases hs with h | h
              · exact hxy h
              · exact hns h⟩

theorem nodup_dropSeen {α : Type} [DecidableEq α] (seen : List α) (l : List α) :
    (dropSeen seen l).Nodup := by
  induction l generalizing seen with
  | nil => simp [dropSeen]
  | cons y rest ih =>
    by_cases hy : y ∈ seen
    · simpa [dropSeen, if_pos hy] using ih seen
    · simp only [dropSeen, if_neg hy]
      refine List.nodup_cons.mpr ⟨fun hmem => ?_, ih (y :: seen)⟩
      exact ((mem_dropSeen (y :: seen) rest y).mp hmem).2 (List.mem_cons_self y seen)

theorem dropSeen_eq_self {α : Type} [DecidableEq α] (seen : List α) (l : List α)
    (hnd : l.Nodup) (hdisj : ∀ x ∈ l, x ∉ seen) : dropSeen seen l = l := by
  induction l generalizing seen with
  | nil => rfl
  | cons y rest ih =>
    have hy : y ∉ seen := hdisj y (List.mem_cons_self y rest)
    have hnd' := List.nodup_cons.mp hnd
    simp only [dropSeen, if_neg hy]
    congr 1
    exact ih (y :: seen) hnd'.2 (fun x hx => by
      intro hmem
      rcases List.mem_cons.mp hmem with h | h
      · exact hnd'.1 (h ▸ hx)
      · exact hdisj x (List.mem_cons_of_mem y hx) h)

theorem mem_drop_duplicates {α : Type} [DecidableEq α] (l : List α) (x : α) :
    x ∈ drop_duplicates l ↔ x ∈ l := by
  simp [drop_duplicates, mem_dropSeen]

theorem nodup_drop_duplicates {α : Type} [DecidableEq α] (l : List α) :
    (drop_duplicates l).Nodup := nodup_dropSeen [] l

theorem drop_duplicates_eq_self {α : Type} [DecidableEq α] (l : List α) (hnd : l.Nodup) :
    drop_duplicates l = l :=
  dropSeen_eq_self [] l hnd (fun x _ => List.not_mem_nil x)

/-- Executable lexicographic strict comparison of character lists.  It is
proved below to agree with the lexicographic order on `String`. -/
def lexLt : List Char → List Char → Bool
  | _, [] => false
  | [], _ :: _ => true
  | a :: as, b :: bs => if a < b then true else if b < a then false else lexLt as bs

theorem lexLt_iff_lex (as bs : List Char) :
    lexLt as bs = true ↔ List.Lex (· < ·) as bs := by
  induction as generalizing bs with
  | nil =>
    cases bs with
    | nil => simp [lexLt]
    | cons b bs => simpa [lexLt] using List.Lex.nil
  | cons a as ih =>
    cases bs with
    | nil => simp [lexLt]
    | cons b bs =>
      by_cases hab : a < b
      · simpa [lexLt, hab] using List.Lex.rel hab
      · by_cases hba : b < a
        · simp only [lexLt, if_neg hab, if_pos hba, Bool.false_eq_true, false_iff]
          intro h
          cases h with
          | cons h' => exact lt_irrefl a hba
          | rel h' => exact hab h'
        · have heq : a = b := le_antisymm (not_lt.mp hba) (not_lt.mp hab)
          subst heq
          simp only [lexLt, if_neg hab, if_neg hba, ih bs]
          exact (List.Lex.cons_iff).symm

theorem lexLt_iff_lt (s t : String) : lexLt s.data t.data = true ↔ s < t := by
  rw [lexLt_iff_lex, String.lt_iff_toList_lt]
  exact Iff.rfl

theorem lexLt_eq_false_iff_le (s t : String) : lexLt t.data s.data = false ↔ s ≤ t := by
  rw [← Bool.not_eq_true, lexLt_iff_lt, ← not_lt]

/-- Lexicographic comparison of (store, link) pairs: the row order produced by
`sort_values(["tienda", "link"])`. -/
def pairLe (a b : String × String) : Prop :=
  a.1 < b.1 ∨ (a.1 = b.1 ∧ a.2 ≤ b.2)

instance : DecidableRel pairLe := fun a b =>
  decidable_of_iff
    (lexLt a.1.data b.1.data = true ∨ (a.1 = b.1 ∧ lexLt b.2.data a.2.data = false))
    (by rw [lexLt_iff_lt, lexLt_eq_false_iff_le]; exact Iff.rfl)

/-- Comparison of store names, as `sort_values("tienda")` and the ascending
key sort of `groupby` order them. -/
def tiendaLe (a b : String) : Prop := a ≤ b

instance : DecidableRel tiendaLe := fun a b =>
  decidable_of_iff (lexLt b.data a.data = false) (lexLt_eq_false_iff_le a b)

instance : IsTotal String tiendaLe := ⟨fun a b => le_total a b⟩

instance : IsTrans String tiendaLe := ⟨fun _ _ _ h1 h2 => le_trans h1 h2⟩

instance : IsAntisymm String tiendaLe := ⟨fun _ _ h1 h2 => le_antisymm h1 h2⟩

instance : IsTotal (String × String) pairLe where
  total a b := by
    rcases lt_trichotomy a.1 b.1 with h | h | h
    · exact Or.inl (Or.inl h)
    · rcases le_total a.2 b.2 with h2 | h2
      · exact Or.inl (Or.inr ⟨h, h2⟩)
      · exact Or.inr (Or.inr ⟨h.symm, h2⟩)
    · exact Or.inr (Or.inl h)

instance : IsTrans (String × String) pairLe where
  trans a b c hab hbc := by
    rcases hab with h1 | ⟨he1, hl1⟩
    · rcases hbc with h2 | ⟨he2, _⟩
      · exact Or.inl (h1.trans h2)
      · exact Or.inl (he2 ▸ h1)
    · rcases hbc with h2 | ⟨he2, hl2⟩
      · exact Or.inl (he1 ▸ h2)
      · exact Or.inr ⟨he1.trans he2, hl1.trans hl2⟩

instance : IsAntisymm (String × String) pairLe where
  antisymm a b hab hba := by
    rcases hab with h1 | ⟨he1, hl1⟩
    · rcases hba with h2 | ⟨he2, _⟩
      · exact absurd h2 (lt_asymm h1)
      · exact absurd (he2 ▸ h1) (lt_irrefl _)
    · rcases hba with h2 | ⟨he2, hl2⟩
      · exact absurd (he1 ▸ h2) (lt_irrefl _)
      · exact Prod.ext he1 (le_antisymm hl1 hl2)

/-- Deduplication of the (store, link) table, as dedup_por_tienda.py builds
`pares_unicos`:
`base.drop_duplicates(subset=["tienda", "link"]).sort_values(["tienda", "link"])`
(extraer_tienda_links.py builds `df_unique` the same way). -/
def dedup (pares : List (String × String)) : List (String × String) :=
  List.insertionSort pairLe (drop_duplicates pares)

theorem dedup_sorted (P : List (String × String)) : (dedup P).Sorted pairLe :=
  List.sorted_insertionSort pairLe (drop_duplicates P)

theorem dedup_nodup (P : List (String × String)) : (dedup P).Nodup :=
  (List.perm_insertionSort pairLe (drop_duplicates P)).nodup_iff.mpr
    (nodup_drop_duplicates P)

theorem mem_dedup (P : List (String × String)) (p : String × String) :
    p ∈ dedup P ↔ p ∈ P := by
  unfold dedup
  rw [List.mem_insertionSort, mem_drop_duplicates]


/-- C1: for every table of (store, link) pairs, dedup returns the pairs sorted
lexicographically by (store, link) with exact duplicates removed; in
particular, on the input rows of Scenario 1 the result is exactly the two
pairs (Store A, http://x) and (Store B, http://y). -/
theorem C1_dedup_sorts_and_removes_duplicates :
    (∀ P : List (String × String),
        (dedup P).Sorted pairLe ∧ (dedup P).Nodup ∧ ∀ p, p ∈ dedup P ↔ p ∈ P) ∧
      dedup [("Store A", "http://x"), ("Store A", "http://x"), ("Store B", "http://y")] =
        [("Store A", "http://x"), ("Store B", "http://y")] :=
  ⟨fun P => ⟨dedup_sorted P, dedup_nodup P, mem_dedup P⟩, by decide⟩

/-- C8: dedup is idempotent, and its result contains no two equal pairs. -/
theorem C8_dedup_idempotent :
    ∀ P : List (String × String), dedup (dedup P) = dedup P ∧ (dedup P).Nodup :=
  fun P => by
    refine ⟨?_, dedup_nodup P⟩
    show List.insertionSort pairLe (drop_duplicates (dedup P)) = dedup P
    rw [drop_duplicates_eq_self (dedup P) (dedup_nodup P)]
    exact (dedup_sorted P).insertionSort_eq

/-- Link sequence of one store inside the deduplicated pair table: the store's
links in row order with repeats removed keeping the first occurrence, which is
what the per-group `s.unique()` of dedup_por_tienda.py computes. -/
def storeLinks (pares : List (String × String)) (s : String) : List String :=
  drop_duplicates ((pares.filter (fun p => decide (p.1 = s))).map Prod.snd)

/-- Grouping of links by store, as dedup_por_tienda.py builds
`links_por_tienda` by a pandas `groupby("tienda")` over `pares_unicos` (and as
extraer_tienda_links.py fills `agrupado` and sorts its items): the distinct
store keys are enumerated in ascending order and each group carries the
store's links in row order with repeats removed keeping the first
occurrence. -/
def group_by_store (pares : List (String × String)) : List (String × List String) :=
  (List.insertionSort tiendaLe (drop_duplicates (pares.map Prod.fst))).map
    (fun s => (s, storeLinks pares s))

theorem map_fst_group_by_store (pares : List (String × String)) :
    (group_by_store pares).map Prod.fst =
      List.insertionSort tiendaLe (drop_duplicates (pares.map Prod.fst)) := by
  unfold group_by_store
  have h : (Prod.fst ∘ fun s : String => (s, storeLinks pares s)) = id := rfl
  rw [List.map_map, h, List.map_id]

theorem tiendaLe_eq_le : tiendaLe = fun a b : String => a ≤ b := rfl

theorem sorted_fst_group_by_store (pares : List (String × String)) :
    ((group_by_store pares).map Prod.fst).Sorted (· < ·) := by
  rw [map_fst_group_by_store]
  have hs : (List.insertionSort tiendaLe
      (drop_duplicates (pares.map Prod.fst))).Sorted (· ≤ ·) := by
    rw [← tiendaLe_eq_le]
    exact List.sorted_insertionSort tiendaLe _
  have hnd : (List.insertionSort tiendaLe
      (drop_duplicates (pares.map Prod.fst))).Nodup :=
    (List.perm_insertionSort tiendaLe _).nodup_iff.mpr
      (nodup_drop_duplicates (pares.map Prod.fst))
  exact hs.lt_of_le hnd

theorem nodup_filtered_links (Q : List (String × String)) (hQ : Q.Nodup) (s : String) :
    ((Q.filter (fun p => decide (p.1 = s))).map Prod.snd).Nodup := by
  refine List.Nodup.map_on ?_ (hQ.filter (fun p => decide (p.1 = s)))
  intro x hx y hy hxy
  have hx1 : x.1 = s := of_decide_eq_true (List.mem_filter.mp hx).2
  have hy1 : y.1 = s := of_decide_eq_true (List.mem_filter.mp hy).2
  exact Prod.ext (hx1.trans hy1.symm) hxy

theorem storeLinks_of_nodup (Q : List (String × String)) (hQ : Q.Nodup) (s : String) :
    storeLinks Q s = (Q.filter (fun p => decide (p.1 = s))).map Prod.snd :=
  drop_duplicates_eq_self _ (nodup_filtered_links Q hQ s)

/-- C2: applied to the deduplicated pair table, group_by_store produces groups
sorted by store name in strictly ascending order; each group's link sequence is
exactly the store's links as they occur in the sorted pair sequence, hence it
preserves first-occurrence order and contains no duplicate link; its groups
are exactly the stores of the pair table. -/
theorem C2_group_by_store_sorted_first_occurrence :
    ∀ P : List (String × String),
      ((group_by_store (dedup P)).map Prod.fst).Sorted (· < ·) ∧
      (∀ s, s ∈ (group_by_store (dedup P)).map Prod.fst ↔ s ∈ (dedup P).map Prod.fst) ∧
      ∀ s ls, (s, ls) ∈ group_by_store (dedup P) →
        ls = ((dedup P).filter (fun p => decide (p.1 = s))).map Prod.snd ∧ ls.Nodup := by
  intro P
  refine ⟨sorted_fst_group_by_store (dedup P), ?_, ?_⟩
  · intro s
    rw [map_fst_group_by_store, List.mem_insertionSort, mem_drop_duplicates]
  · intro s ls hmem
    rcases List.mem_map.mp hmem with ⟨a, _, heq⟩
    rcases Prod.mk.injEq _ _ _ _ ▸ heq with ⟨ha, hls⟩
    subst ha
    rw [← hls, storeLinks_of_nodup (dedup P) (dedup_nodup P) a]
    exact ⟨rfl, nodup_filtered_links (dedup P) (dedup_nodup P) a⟩

/-- Witness for C2 on the Scenario 1 rows: the group of Store A is exactly its
links in the sorted pair sequence and has no duplicate. -/
theorem C2_group_by_store_sorted_first_occurrence_witness :
    ("Store A", ["http://x"]) ∈ group_by_store (dedup
        [("Store A", "http://x"), ("Store A", "http://x"), ("Store B", "http://y")]) ∧
      (["http://x"] : List String) =
        ((dedup [("Store A", "http://x"), ("Store A", "http://x"),
            ("Store B", "http://y")]).filter
          (fun p => decide (p.1 = "Store A"))).map Prod.snd ∧
      (["http://x"] : List String).Nodup :=
  ⟨by decide,
    (C2_group_by_store_sorted_first_occurrence
        [("Store A", "http://x"), ("Store A", "http://x"), ("Store B", "http://y")]).2.2
      "Store A" ["http://x"] (by decide)⟩

/-- One-link-per-store table, as dedup_por_tienda.py builds `uno_por_tienda`
when ONE_PER_STORE is set:
`pares_unicos.sort_values(["tienda", "link"]).groupby("tienda", as_index=False).first()`.
The `groupby` enumerates the distinct stores in ascending order and `first()`
takes the first row of each group in the sorted row order. -/
def uno_por_tienda (pares : List (String × String)) : List (String × String) :=
  (List.insertionSort tiendaLe
      (drop_duplicates ((List.insertionSort pairLe pares).map Prod.fst))).map
    (fun s =>
      (s, (((List.insertionSort pairLe pares).filter
              (fun p => decide (p.1 = s))).map Prod.snd).headD ""))

theorem map_fst_uno_por_tienda (pares : List (String × String)) :
    (uno_por_tienda pares).map Prod.fst =
      List.insertionSort tiendaLe
        (drop_duplicates ((List.insertionSort pairLe pares).map Prod.fst)) := by
  unfold uno_por_tienda
  have h : (Prod.fst ∘ fun s : String =>
      (s, (((List.insertionSort pairLe pares).filter
              (fun p => decide (p.1 = s))).map Prod.snd).headD "")) = id := rfl
  rw [List.map_map, h, List.map_id]

/-- C10: on the deduplicated pair table, the one-link-per-store table has
exactly one row per distinct store of the unique pairs, and the link kept for
each store is the lexicographically smallest of that store's unique links. -/
theorem C10_uno_por_tienda_min_link :
    ∀ P : List (String × String),
      ((uno_por_tienda (dedup P)).map Prod.fst).Nodup ∧
      (∀ s, s ∈ (uno_por_tienda (dedup P)).map Prod.fst ↔ s ∈ (dedup P).map Prod.fst) ∧
      ∀ s l, (s, l) ∈ uno_por_tienda (dedup P) →
        (s, l) ∈ dedup P ∧ ∀ l', (s, l') ∈ dedup P → l ≤ l' := by
  intro P
  have hsorted : (dedup P).Sorted pairLe := dedup_sorted P
  have hsort_eq : List.insertionSort pairLe (dedup P) = dedup P := hsorted.insertionSort_eq
  have huno : uno_por_tienda (dedup P) =
      (List.insertionSort tiendaLe (drop_duplicates ((dedup P).map Prod.fst))).map
        (fun s =>
          (s, (((dedup P).filter (fun p => decide (p.1 = s))).map Prod.snd).headD "")) := by
    unfold uno_por_tienda
    rw [hsort_eq]
  refine ⟨?_, ?_, ?_⟩
  · rw [map_fst_uno_por_tienda]
    exact (List.perm_insertionSort tiendaLe _).nodup_iff.mpr (nodup_drop_duplicates _)
  · intro s
    rw [map_fst_uno_por_tienda, List.mem_insertionSort, mem_drop_duplicates, hsort_eq]
  · intro s l hmem
    rw [huno] at hmem
    rcases List.mem_map.mp hmem with ⟨a, ha, heq⟩
    have haeq : a = s := congrArg Prod.fst heq
    subst haeq
    have hleq : (((dedup P).filter (fun p => decide (p.1 = a))).map Prod.snd).headD "" = l :=
      congrArg Prod.snd heq
    have hamem : a ∈ (dedup P).map Prod.fst := by
      rw [List.mem_insertionSort, mem_drop_duplicates] at ha
      exact ha
    rcases List.mem_map.mp hamem with ⟨q, hq, hqa⟩
    have hqfilter : q ∈ (dedup P).filter (fun p => decide (p.1 = a)) :=
      List.mem_filter.mpr ⟨hq, decide_eq_true hqa⟩
    cases hfil : (dedup P).filter (fun p => decide (p.1 = a)) with
    | nil =>
      rw [hfil] at hqfilter
      exact absurd hqfilter (List.not_mem_nil q)
    | cons f0 frest =>
      rw [hfil] at hleq
      have hl : l = f0.2 := by simpa using hleq.symm
      have hf0 : f0 ∈ (dedup P).filter (fun p => decide (p.1 = a)) := by
        rw [hfil]
        exact List.mem_cons_self f0 frest
      have hf0U : f0 ∈ dedup P := (List.mem_filter.mp hf0).1
      have hf0a : f0.1 = a := of_decide_eq_true (List.mem_filter.mp hf0).2
      have hpair : (a, l) = f0 := Prod.ext hf0a.symm hl
      refine ⟨hpair ▸ hf0U, ?_⟩
      intro l' hl'
      have hl'filter : (a, l') ∈ (dedup P).filter (fun p => decide (p.1 = a)) :=
        List.mem_filter.mpr ⟨hl', decide_eq_true rfl⟩
      rw [hfil] at hl'filter
      have hpw : ((dedup P).filter (fun p => decide (p.1 = a))).Pairwise pairLe :=
        List.Pairwise.filter _ hsorted
      rw [hfil] at hpw
      rcases List.mem_cons.mp hl'filter with h | h
      · exact le_of_eq (hl.trans (congrArg Prod.snd h).symm)
      · rcases (List.pairwise_cons.mp hpw).1 _ h with hlt | ⟨_, hle⟩
        · rw [hf0a] at hlt
          exact absurd hlt (lt_irrefl a)
        · rw [hl]
          exact hle

/-- Witness for C10: with unique pairs (S, a) and (S, b), the kept pair is in
the table and its link is smallest. -/
theorem C10_uno_por_tienda_min_link_witness :
    ("S", "a") ∈ dedup [("S", "b"), ("S", "a")] ∧ ("a" : String) ≤ "b" :=
  ⟨((C10_uno_por_tienda_min_link [("S", "b"), ("S", "a")]).2.2 "S" "a" (by decide)).1,
    ((C10_uno_por_tienda_min_link [("S", "b"), ("S", "a")]).2.2 "S" "a" (by decide)).2
      "b" (by decide)⟩

/-- Count of distinct links of a group, as the pandas `nunique` aggregation
computes it. -/
def nunique (links : List String) : Nat := (drop_duplicates links).length

/-- Rounding of a rational to 2 decimal places, as `round(x, 2)` does on the
reported mean. -/
def round2 (x : ℚ) : ℚ := (round (x * 100) : ℤ) / 100

/-- Reported summary value of dedup_por_tienda.py:
`round(links_por_tienda["links_unicos"].mean(), 2) if not links_por_tienda.empty else 0`,
where the `links_unicos` column holds the `nunique` link count of each
group. -/
def promedio_links_unicos_por_tienda (grupos : List (String × List String)) : ℚ :=
  if grupos = [] then 0
  else round2 ((grupos.map (fun g => (nunique g.2 : ℚ))).sum / grupos.length)

theorem nodup_snd_group_by_store (pares : List (String × String)) :
    ∀ g ∈ group_by_store pares, g.2.Nodup := by
  intro g hg
  rcases List.mem_map.mp hg with ⟨a, _, heq⟩
  rw [← heq]
  exact nodup_drop_duplicates _

/-- C7: the reported average of unique links per store is the arithmetic mean
of the unique-link counts of the groups, rounded to 2 decimal places, and it
is 0 when there are no groups; for the groups of the pipeline the unique-link
count of a group is just its link count, the links being unique. -/
theorem C7_promedio_links_unicos :
    ∀ P : List (String × String),
      (group_by_store (dedup P) = [] →
        promedio_links_unicos_por_tienda (group_by_store (dedup P)) = 0) ∧
      (group_by_store (dedup P) ≠ [] →
        promedio_links_unicos_por_tienda (group_by_store (dedup P)) =
          round2 (((group_by_store (dedup P)).map (fun g => (g.2.length : ℚ))).sum /
            (group_by_store (dedup P)).length)) := by
  intro P
  constructor
  · intro h
    rw [promedio_links_unicos_por_tienda, if_pos h]
  · intro h
    rw [promedio_links_unicos_por_tienda, if_neg h]
    have hmap : (group_by_store (dedup P)).map (fun g => ((nunique g.2 : Nat) : ℚ)) =
        (group_by_store (dedup P)).map (fun g => (g.2.length : ℚ)) := by
      refine List.map_congr_left ?_
      intro g hg
      have hnd : g.2.Nodup := nodup_snd_group_by_store (dedup P) g hg
      rw [nunique, drop_duplicates_eq_self g.2 hnd]
    rw [hmap]

/-- Witness for C7: zero groups report average 0; the two Scenario 1 groups,
one unique link each, report the rounded mean of their link counts. -/
theorem C7_promedio_links_unicos_witness :
    promedio_links_unicos_por_tienda (group_by_store (dedup [])) = 0 ∧
      promedio_links_unicos_por_tienda (group_by_store (dedup
          [("Store A", "http://x"), ("Store A", "http://x"), ("Store B", "http://y")])) =
        round2 (((group_by_store (dedup
            [("Store A", "http://x"), ("Store A", "http://x"),
              ("Store B", "http://y")])).map (fun g => (g.2.length : ℚ))).sum /
          (group_by_store (dedup
            [("Store A", "http://x"), ("Store A", "http://x"),
              ("Store B", "http://y")])).length) :=
  ⟨(C7_promedio_links_unicos []).1 (by decide),
    (C7_promedio_links_unicos
        [("Store A", "http://x"), ("Store A", "http://x"), ("Store B", "http://y")]).2
      (by decide)⟩

/-- Python `str.strip()` with no argument, as applied to the store and link
values by `astype(str).str.strip()` in dedup_por_tienda.py and by
`str(tienda).strip()` / `url.strip()` in extraer_tienda_links.py: removes
leading and trailing whitespace and nothing else. -/
def pyStrip (s : String) : String :=
  ⟨((s.data.dropWhile Char.isWhitespace).reverse.dropWhile Char.isWhitespace).reverse⟩

theorem head_dropWhile_false (p : Char → Bool) (l : List Char) (a : Char)
    (h : (l.dropWhile p).head? = some a) : p a = false := by
  have := List.head?_dropWhile_not p l
  rw [h] at this
  simpa using this

/-- C3 counterexample: the store normalization of the scripts only strips the
ends; "  Store  X " normalizes to "Store  X", with its internal double space
intact, not to "Store X". -/
theorem C3_normalization_does_not_collapse :
    pyStrip "  Store  X " = "Store  X" ∧ pyStrip "  Store  X " ≠ "Store X" := by
  constructor <;> decide

/-- C3 amended: normalization of a store value trims leading and trailing
whitespace and preserves the interior verbatim, so internal whitespace runs
are kept; in particular "  Store  X " normalizes to "Store  X". -/
theorem C3_normalize_store_trims_only :
    pyStrip "  Store  X " = "Store  X" ∧
    ∀ s : String, ∃ l r : List Char,
      s.data = l ++ (pyStrip s).data ++ r ∧
      (∀ c ∈ l, c.isWhitespace = true) ∧
      (∀ c ∈ r, c.isWhitespace = true) ∧
      (∀ c, (pyStrip s).data.head? = some c → c.isWhitespace = false) ∧
      (∀ c, (pyStrip s).data.getLast? = some c → c.isWhitespace = false) := by
  refine ⟨by decide, ?_⟩
  intro s
  have hres : (pyStrip s).data =
      ((s.data.dropWhile Char.isWhitespace).reverse.dropWhile Char.isWhitespace).reverse :=
    rfl
  have h2 : (s.data.dropWhile Char.isWhitespace).reverse.takeWhile Char.isWhitespace ++
        (s.data.dropWhile Char.isWhitespace).reverse.dropWhile Char.isWhitespace =
      (s.data.dropWhile Char.isWhitespace).reverse :=
    List.takeWhile_append_dropWhile _ _
  have h3 : s.data.dropWhile Char.isWhitespace =
      ((s.data.dropWhile Char.isWhitespace).reverse.dropWhile Char.isWhitespace).reverse ++
        ((s.data.dropWhile Char.isWhitespace).reverse.takeWhile Char.isWhitespace).reverse := by
    conv_lhs => rw [← List.reverse_reverse (s.data.dropWhile Char.isWhitespace), ← h2]
    rw [List.reverse_append]
  refine ⟨s.data.takeWhile Char.isWhitespace,
    ((s.data.dropWhile Char.isWhitespace).reverse.takeWhile Char.isWhitespace).reverse,
    ?_, ?_, ?_, ?_, ?_⟩
  · rw [hres, List.append_assoc, ← h3, List.takeWhile_append_dropWhile]
  · intro c hc
    simpa using List.mem_takeWhile_imp hc
  · intro c hc
    rw [List.mem_reverse] at hc
    simpa using List.mem_takeWhile_imp hc
  · intro c hc
    rw [hres] at hc
    cases hcase : ((s.data.dropWhile Char.isWhitespace).reverse.dropWhile
        Char.isWhitespace).reverse with
    | nil =>
      rw [hcase] at hc
      simp at hc
    | cons a t =>
      rw [hcase] at hc
      have hac : a = c := by simpa using hc
      have hmhead : (s.data.dropWhile Char.isWhitespace).head? = some a := by
        rw [h3, hcase]
        rfl
      rw [← hac]
      exact head_dropWhile_false Char.isWhitespace s.data a hmhead
  · intro c hc
    rw [hres, List.getLast?_reverse] at hc
    exact head_dropWhile_false Char.isWhitespace
      (s.data.dropWhile Char.isWhitespace).reverse c hc

/-- Witness for the amended C3 at the Scenario 3 value. -/
theorem C3_normalize_store_trims_only_witness :
    pyStrip "  Store  X " = "Store  X" ∧
    ∃ l r : List Char,
      ("  Store  X " : String).data = l ++ (pyStrip "  Store  X ").data ++ r ∧
      (∀ c ∈ l, c.isWhitespace = true) ∧
      (∀ c ∈ r, c.isWhitespace = true) ∧
      (∀ c, (pyStrip "  Store  X ").data.head? = some c → c.isWhitespace = false) ∧
      (∀ c, (pyStrip "  Store  X ").data.getLast? = some c → c.isWhitespace = false) :=
  ⟨C3_normalize_store_trims_only.1, C3_normalize_store_trims_only.2 "  Store  X "⟩

/-- Case-insensitive substring test: whether `pat` occurs inside `l` once `l`
is lowered, as the IGNORECASE regex search does. -/
def hasSubCI (pat : List Char) (l : List Char) : Bool :=
  (l.map Char.toLower).tails.any (fun t => pat.isPrefixOf t)

/-- Whether a stringified cell value is HTTP-like: the IGNORECASE regex
`https?://` of autodetect_link_column finds a match in it. -/
def containsHttpLike (s : String) : Bool :=
  hasSubCI "http://".data s.data || hasSubCI "https://".data s.data

/-- First preferred column name that exists among the columns, scanned in
preference-list order: the first loop of autodetect_link_column. -/
def findPreferida : List String → List String → Option String
  | [], _ => none
  | c :: rest, cols => if c ∈ cols then some c else findPreferida rest cols

/-- First column, in table order, one of whose values is HTTP-like: the second
loop of autodetect_link_column. -/
def findColumnaConUrl : List (String × List String) → Option String
  | [] => none
  | col :: rest => if col.2.any containsHttpLike then some col.1 else findColumnaConUrl rest

/-- autodetect_link_column of dedup_por_tienda.py, over a DataFrame given as
an ordered list of (column name, stringified values); the `none` result is
the raised ValueError. -/
def autodetect_link_column (df : List (String × List String)) (prefer : List String) :
    Option String :=
  match findPreferida prefer (df.map Prod.fst) with
  | some c => some c
  | none => findColumnaConUrl df

/-- The preference list PREFER_COLS of dedup_por_tienda.py. -/
def PREFER_COLS : List String := ["id_visita (URL extraída)", "link", "id_visita"]

theorem findPreferida_eq_none (prefer cols : List String) :
    findPreferida prefer cols = none ↔ ∀ c ∈ prefer, c ∉ cols := by
  induction prefer with
  | nil => simp [findPreferida]
  | cons c rest ih =>
    by_cases hc : c ∈ cols
    · simp [findPreferida, if_pos hc, hc]
    · simp [findPreferida, if_neg hc, ih, hc]

theorem findPreferida_first (p1 : List String) (c : String) (p2 cols : List String)
    (h1 : ∀ x ∈ p1, x ∉ cols) (h2 : c ∈ cols) :
    findPreferida (p1 ++ c :: p2) cols = some c := by
  induction p1 with
  | nil => simp [findPreferida, if_pos h2]
  | cons x rest ih =>
    have hx : x ∉ cols := h1 x (List.mem_cons_self x rest)
    simp only [List.cons_append, findPreferida, if_neg hx]
    exact ih (fun y hy => h1 y (List.mem_cons_of_mem x hy))

theorem findColumnaConUrl_eq_none (df : List (String × List String)) :
    findColumnaConUrl df = none ↔
      ∀ col ∈ df, ∀ v ∈ col.2, containsHttpLike v = false := by
  induction df with
  | nil => simp [findColumnaConUrl]
  | cons col rest ih =>
    by_cases hc : col.2.any containsHttpLike = true
    · simp only [findColumnaConUrl, if_pos hc]
      rcases List.any_eq_true.mp hc with ⟨v, hv, hvt⟩
      constructor
      · intro h
        exact absurd h (by simp)
      · intro h
        exact absurd hvt (by rw [h col (List.mem_cons_self col rest) v hv]; simp)
    · simp only [findColumnaConUrl, if_neg hc, ih]
      constructor
      · intro h x hx v hv
        rcases List.mem_cons.mp hx with rfl | hx'
        · rcases Bool.eq_false_or_eq_true (containsHttpLike v) with ht | hf
          · exact absurd (List.any_eq_true.mpr ⟨v, hv, ht⟩) hc
          · exact hf
        · exact h x hx' v hv
      · intro h x hx v hv
        exact h x (List.mem_cons_of_mem col hx) v hv

theorem findColumnaConUrl_first (d1 : List (String × List String))
    (col : String × List String) (d2 : List (String × List String))
    (h1 : ∀ x ∈ d1, x.2.any containsHttpLike = false)
    (h2 : col.2.any containsHttpLike = true) :
    findColumnaConUrl (d1 ++ col :: d2) = some col.1 := by
  induction d1 with
  | nil => simp [findColumnaConUrl, h2]
  | cons x rest ih =>
    have hx : ¬ x.2.any containsHttpLike = true := by
      rw [h1 x (List.mem_cons_self x rest)]
      simp
    simp only [List.cons_append, findColumnaConUrl, if_neg hx]
    exact ih (fun y hy => h1 y (List.mem_cons_of_mem x hy))

theorem hasSubCI_iff_infix (pat : List Char) (l : List Char) :
    hasSubCI pat l = true ↔ pat <:+: l.map Char.toLower := by
  rw [hasSubCI, List.any_eq_true, List.infix_iff_prefix_suffix]
  constructor
  · rintro ⟨t, ht, hpre⟩
    exact ⟨t, List.isPrefixOf_iff_prefix.mp hpre, (List.mem_tails _ _).mp ht⟩
  · rintro ⟨t, hpre, hsuf⟩
    exact ⟨t, (List.mem_tails _ _).mpr hsuf, List.isPrefixOf_iff_prefix.mpr hpre⟩

/-- C4: without an explicit choice, link-column resolution returns the first
preference-list name that exists among the columns; failing that it scans the
columns left-to-right and returns the first whose values contain an HTTP-like
substring, case-insensitively; and it errors exactly when neither rule finds a
column. -/
theorem C4_autodetect_link_column_resolution :
    ∀ (df : List (String × List String)) (prefer : List String),
      (∀ p1 c p2, prefer = p1 ++ c :: p2 → (∀ x ∈ p1, x ∉ df.map Prod.fst) →
        c ∈ df.map Prod.fst → autodetect_link_column df prefer = some c) ∧
      ((∀ c ∈ prefer, c ∉ df.map Prod.fst) →
        ∀ d1 col d2, df = d1 ++ col :: d2 →
          (∀ x ∈ d1, x.2.any containsHttpLike = false) →
          col.2.any containsHttpLike = true →
          autodetect_link_column df prefer = some col.1) ∧
      (autodetect_link_column df prefer = none ↔
        (∀ c ∈ prefer, c ∉ df.map Prod.fst) ∧
          ∀ col ∈ df, ∀ v ∈ col.2, containsHttpLike v = false) ∧
      ∀ v : String, containsHttpLike v = true ↔
        ("http://".data <:+: v.data.map Char.toLower ∨
          "https://".data <:+: v.data.map Char.toLower) := by
  intro df prefer
  refine ⟨?_, ?_, ?_, ?_⟩
  · intro p1 c p2 hpref h1 h2
    rw [autodetect_link_column, hpref, findPreferida_first p1 c p2 _ h1 h2]
  · intro hnone d1 col d2 hdf h1 h2
    rw [autodetect_link_column, (findPreferida_eq_none prefer _).mpr hnone, hdf,
      findColumnaConUrl_first d1 col d2 h1 h2]
  · rw [autodetect_link_column]
    cases hfp : findPreferida prefer (df.map Prod.fst) with
    | some c =>
      simp only [reduceCtorEq, false_iff, not_and]
      intro hnone
      exact absurd hfp (by rw [(findPreferida_eq_none prefer _).mpr hnone]; simp)
    | none =>
      rw [findColumnaConUrl_eq_none]
      simp only [iff_and_self]
      intro _
      exact (findPreferida_eq_none prefer _).mp hfp
  · intro v
    rw [containsHttpLike, Bool.or_eq_true, hasSubCI_iff_infix, hasSubCI_iff_infix]

/-- Witness for C4: the priority name "link" wins over value scanning, and a
column with an upper-case HTTPS value is found by the scan when no preferred
name exists. -/
theorem C4_autodetect_link_column_resolution_witness :
    autodetect_link_column [("tienda", ["Store A"]), ("link", ["http://x"])] PREFER_COLS =
      some "link" ∧
    autodetect_link_column [("tienda", ["Store A"]), ("visita", ["ver HTTPS://x"])] [] =
      some "visita" :=
  ⟨(C4_autodetect_link_column_resolution
        [("tienda", ["Store A"]), ("link", ["http://x"])] PREFER_COLS).1
      ["id_visita (URL extraída)"] "link" ["id_visita"] rfl (by decide) (by decide),
    (C4_autodetect_link_column_resolution
        [("tienda", ["Store A"]), ("visita", ["ver HTTPS://x"])] []).2.1 (by decide)
      [("tienda", ["Store A"])] ("visita", ["ver HTTPS://x"]) [] rfl (by decide) (by decide)⟩

/-- URL base of extraer_tienda_links.py (its URL_PREFIX constant), prepended
to a bare GUID cell value. -/
def URL_PREFIJO : String :=
  "https://services.traxretail.com/trax-one/sindicatedmx/explore/visit/"

/-- Python `v.startswith(p)`. -/
def empiezaCon (v p : String) : Bool := p.data.isPrefixOf v.data

/-- The startswith test of rule (b) of the row loop:
`celda.value.startswith(("=HIPERVINCULO(", "=HYPERLINK("))`. -/
def esFormulaLink (v : String) : Bool :=
  empiezaCon v "=HIPERVINCULO(" || empiezaCon v "=HYPERLINK("

/-- Strips a case-insensitive `https?://` scheme from the front of the
characters, returning the original-case scheme characters and the remainder,
as the IGNORECASE regex of extraer_url_de_formula matches them. -/
def quitaEsquema (l : List Char) : Option (List Char × List Char) :=
  if "https://".data.isPrefixOf (l.map Char.toLower) then some (l.take 8, l.drop 8)
  else if "http://".data.isPrefixOf (l.map Char.toLower) then some (l.take 7, l.drop 7)
  else none

/-- Match of the regex pattern of extraer_url_de_formula anchored at the
current position: an opening double quote, an `https?://` scheme, at least
one further character other than a double quote, then a closing double quote;
the captured group is the scheme together with the run of non-quote
characters. -/
def matchComillasUrl : List Char → Option (List Char)
  | '"' :: resto =>
    match quitaEsquema resto with
    | some (esquema, tras) =>
      if 1 ≤ (tras.takeWhile (fun c => decide (c ≠ '"'))).length ∧
          (tras.takeWhile (fun c => decide (c ≠ '"'))).length < tras.length then
        some (esquema ++ tras.takeWhile (fun c => decide (c ≠ '"')))
      else none
    | none => none
  | _ => none

/-- Leftmost match of the quoted-URL pattern, as `re.search` scans the
formula text. -/
def buscaPrimeraUrl : List Char → Option (List Char)
  | [] => none
  | c :: resto =>
    match matchComillasUrl (c :: resto) with
    | some u => some u
    | none => buscaPrimeraUrl resto

/-- extraer_url_de_formula of extraer_tienda_links.py: the first URL between
double quotes inside a HIPERVINCULO / HYPERLINK formula, or `none`. -/
def extraer_url_de_formula (s : String) : Option String :=
  (buscaPrimeraUrl s.data).map (fun l => ⟨l⟩)

/-- Hexadecimal digit as the character class of GUID_RE accepts it. -/
def esHex (c : Char) : Bool :=
  c.isDigit || (decide ('a' ≤ c) && decide (c ≤ 'f')) || (decide ('A' ≤ c) && decide (c ≤ 'F'))

/-- Dash positions of the 8-4-4-4-12 GUID layout. -/
def esGuion (i : Nat) : Bool :=
  decide (i = 8) || decide (i = 13) || decide (i = 18) || decide (i = 23)

/-- GUID_RE.fullmatch of extraer_tienda_links.py on a character list: exactly
36 characters, dashes at positions 8, 13, 18 and 23, hexadecimal digits
everywhere else. -/
def guid_fullmatch (l : List Char) : Bool :=
  decide (l.length = 36) &&
    (List.range 36).all (fun i =>
      if esGuion i then decide (l.getD i ' ' = '-') else esHex (l.getD i ' '))

/-- A cell of the link column as extraer_tienda_links.py reads it:
`hyperlink` is the target of a real hyperlink when the cell carries one with
a non-empty target (`celda.hyperlink.target`), and `valor` is the cell value
when that value is a string (`celda.value`), `none` when the value is missing
or not a string. -/
structure Celda where
  hyperlink : Option String
  valor : Option String

/-- Rules (b) and (c) of the row loop of extraer_tienda_links.py, reached
when no hyperlink target was found: read a HIPERVINCULO / HYPERLINK formula,
and if that yields nothing build the URL from a bare GUID. -/
def segundaRegla (valor : Option String) : Option String :=
  match valor with
  | some v =>
    match (if esFormulaLink v then extraer_url_de_formula v else none) with
    | some u => some u
    | none =>
      if guid_fullmatch (pyStrip v).data then some (URL_PREFIJO ++ pyStrip v) else none
  | none => none

/-- URL detected for a row of extraer_tienda_links.py: the real hyperlink
target when present and non-empty, else the formula and GUID rules. -/
def url_detectada (c : Celda) : Option String :=
  match c.hyperlink with
  | some t => if t = "" then segundaRegla c.valor else some t
  | none => segundaRegla c.valor

/-- Row handling of extraer_tienda_links.py: the pair appended to `pares` for
a row whose store cell value, seen as a string, is `tienda` (`none` for a
missing value) and whose link cell is `c`; Python truthiness makes the empty
string act like a missing store. -/
def procesar_fila (tienda : Option String) (c : Celda) : Option (String × String) :=
  match url_detectada c, tienda with
  | some url, some t =>
    if t ≠ "" ∧ url ≠ "" then some (pyStrip t, pyStrip url) else none
  | _, _ => none

theorem head_of_esFormulaLink (v : String) (hf : esFormulaLink v = true) :
    v.data.head? = some '=' := by
  rw [esFormulaLink, Bool.or_eq_true] at hf
  rcases hf with h | h <;>
  · rw [empiezaCon] at h
    rcases List.isPrefixOf_iff_prefix.mp h with ⟨t, ht⟩
    rw [← ht]
    rfl

theorem pyStrip_head_of_not_ws (v : String) (a : Char)
    (ha : v.data.head? = some a) (hnw : a.isWhitespace = false) :
    (pyStrip v).data.head? = some a := by
  cases hv : v.data with
  | nil =>
    rw [hv] at ha
    simp at ha
  | cons a0 t =>
    rw [hv] at ha
    have ha0 : a0 = a := by simpa using ha
    subst ha0
    have hdrop : v.data.dropWhile Char.isWhitespace = a0 :: t := by
      rw [hv]
      simp [List.dropWhile_cons, hnw]
    have h2 : (a0 :: t).reverse.takeWhile Char.isWhitespace ++
          (a0 :: t).reverse.dropWhile Char.isWhitespace = (a0 :: t).reverse :=
      List.takeWhile_append_dropWhile _ _
    have h3 : a0 :: t = ((a0 :: t).reverse.dropWhile Char.isWhitespace).reverse ++
        ((a0 :: t).reverse.takeWhile Char.isWhitespace).reverse := by
      conv_lhs => rw [← List.reverse_reverse (a0 :: t), ← h2]
      rw [List.reverse_append]
    have hres : (pyStrip v).data =
        ((a0 :: t).reverse.dropWhile Char.isWhitespace).reverse := by
      show ((v.data.dropWhile Char.isWhitespace).reverse.dropWhile Char.isWhitespace).reverse = _
      rw [hdrop]
    cases hcase : ((a0 :: t).reverse.dropWhile Char.isWhitespace).reverse with
    | nil =>
      rw [hcase, List.nil_append] at h3
      have hmem : a0 ∈ ((a0 :: t).reverse.takeWhile Char.isWhitespace).reverse := by
        rw [← h3]
        exact List.mem_cons_self a0 t
      rw [List.mem_reverse] at hmem
      have hws : a0.isWhitespace = true := by
        simpa using List.mem_takeWhile_imp hmem
      rw [hnw] at hws
      exact absurd hws (by simp)
    | cons b res' =>
      rw [hcase, List.cons_append] at h3
      injection h3 with h1 _
      rw [hres, hcase]
      show some b = some a0
      rw [h1]

theorem guid_fullmatch_false_of_head (l : List Char) (h : l.head? = some '=') :
    guid_fullmatch l = false := by
  cases l with
  | nil => simp at h
  | cons a t =>
    have ha : a = '=' := by simpa using h
    subst ha
    unfold guid_fullmatch
    rcases Bool.eq_false_or_eq_true (decide ((('=' :: t) : List Char).length = 36)) with
      hlen | hlen
    · rw [hlen, Bool.true_and]
      rcases Bool.eq_false_or_eq_true ((List.range 36).all (fun i =>
          if esGuion i then decide ((('=' :: t) : List Char).getD i ' ' = '-')
          else esHex ((('=' :: t) : List Char).getD i ' '))) with hall | hall
      · have hf0 := List.all_eq_true.mp hall 0 (by decide)
        have hfalse : (false : Bool) = true := hf0
        exact absurd hfalse (by simp)
      · exact hall
    · rw [hlen, Bool.false_and]

theorem segundaRegla_formula (v : String) (hf : esFormulaLink v = true) :
    segundaRegla (some v) = extraer_url_de_formula v := by
  have hguid : guid_fullmatch (pyStrip v).data = false :=
    guid_fullmatch_false_of_head _
      (pyStrip_head_of_not_ws v '=' (head_of_esFormulaLink v hf) (by decide))
  rw [segundaRegla]
  cases hu : extraer_url_de_formula v with
  | some u => simp [hf, hu]
  | none => simp [hf, hu, hguid]

theorem segundaRegla_guid (v : String) (hf : esFormulaLink v = false)
    (hg : guid_fullmatch (pyStrip v).data = true) :
    segundaRegla (some v) = some (URL_PREFIJO ++ pyStrip v) := by
  simp [segundaRegla, hf, hg]

theorem segundaRegla_nada (v : String) (hf : esFormulaLink v = false)
    (hg : guid_fullmatch (pyStrip v).data = false) :
    segundaRegla (some v) = none := by
  simp [segundaRegla, hf, hg]

/-- C9: the URL extracted for a workbook row follows the fixed precedence of
the row loop: a non-empty real hyperlink target wins; else a value that is a
string starting with the HIPERVINCULO or HYPERLINK formula head yields the
first quoted http(s) URL of the formula; else a string value whose stripped
form matches the GUID pattern yields the fixed URL base concatenated with the
stripped value; else no URL is detected and the row contributes no pair. -/
theorem C9_url_detectada_precedencia :
    ∀ c : Celda,
      (∀ t, c.hyperlink = some t → t ≠ "" → url_detectada c = some t) ∧
      ((c.hyperlink = none ∨ c.hyperlink = some "") →
        (∀ v, c.valor = some v → esFormulaLink v = true →
          url_detectada c = extraer_url_de_formula v) ∧
        (∀ v, c.valor = some v → esFormulaLink v = false →
          guid_fullmatch (pyStrip v).data = true →
          url_detectada c = some (URL_PREFIJO ++ pyStrip v)) ∧
        (∀ v, c.valor = some v → esFormulaLink v = false →
          guid_fullmatch (pyStrip v).data = false →
          url_detectada c = none) ∧
        (c.valor = none → url_detectada c = none)) ∧
      (url_detectada c = none → ∀ t, procesar_fila t c = none) := by
  intro c
  have hsegunda : (c.hyperlink = none ∨ c.hyperlink = some "") →
      url_detectada c = segundaRegla c.valor := by
    rintro (h | h) <;> rw [url_detectada, h]
    simp
  refine ⟨?_, ?_, ?_⟩
  · intro t ht hne
    rw [url_detectada, ht]
    simp [hne]
  · intro hhyp
    refine ⟨?_, ?_, ?_, ?_⟩
    · intro v hv hf
      rw [hsegunda hhyp, hv, segundaRegla_formula v hf]
    · intro v hv hf hg
      rw [hsegunda hhyp, hv, segundaRegla_guid v hf hg]
    · intro v hv hf hg
      rw [hsegunda hhyp, hv, segundaRegla_nada v hf hg]
    · intro hv
      rw [hsegunda hhyp, hv, segundaRegla]
  · intro hnone t
    simp [procesar_fila, hnone]

/-- Witness for C9: a cell with a real hyperlink target keeps it; a HYPERLINK
formula cell yields its first quoted URL; a GUID cell yields the base URL
with the stripped GUID appended. -/
theorem C9_url_detectada_precedencia_witness :
    url_detectada ⟨some "http://t", some "ignorado"⟩ = some "http://t" ∧
    url_detectada ⟨none, some "=HYPERLINK(\"http://a\",\"x\")"⟩ =
      extraer_url_de_formula "=HYPERLINK(\"http://a\",\"x\")" ∧
    url_detectada ⟨none, some " 12345678-1234-1234-1234-123456789abc "⟩ =
      some (URL_PREFIJO ++ pyStrip " 12345678-1234-1234-1234-123456789abc ") :=
  ⟨(C9_url_detectada_precedencia ⟨some "http://t", some "ignorado"⟩).1 "http://t" rfl
      (by decide),
    ((C9_url_detectada_precedencia
        ⟨none, some "=HYPERLINK(\"http://a\",\"x\")"⟩).2.1 (Or.inl rfl)).1 _ rfl (by decide),
    (((C9_url_detectada_precedencia
        ⟨none, some " 12345678-1234-1234-1234-123456789abc "⟩).2.1 (Or.inl rfl)).2.1 _ rfl
      (by decide) (by decide))⟩

/-- Cleaning steps of dedup_por_tienda.py building `base` from the two
selected columns, a missing cell being `none`:
`dropna(subset=["tienda", "link"])`, then `astype(str).str.strip()` on both
columns, then keeping only the rows whose link is not the empty string. -/
def limpiar_base (filas : List (Option String × Option String)) : List (String × String) :=
  (filas.filterMap (fun f =>
      match f with
      | (some t, some l) => some (pyStrip t, pyStrip l)
      | _ => none)).filter (fun p => decide (p.2 ≠ ""))

theorem limpiar_base_append (l1 l2 : List (Option String × Option String)) :
    limpiar_base (l1 ++ l2) = limpiar_base l1 ++ limpiar_base l2 := by
  simp [limpiar_base, List.filterMap_append, List.filter_append]

theorem limpiar_base_cons_mala (f : Option String × Option String)
    (h : f.1 = none ∨ f.2 = none ∨ (∀ l, f.2 = some l → pyStrip l = ""))
    (l2 : List (Option String × Option String)) :
    limpiar_base (f :: l2) = limpiar_base l2 := by
  rcases f with ⟨t, l⟩
  cases t with
  | none => simp [limpiar_base]
  | some tv =>
    cases l with
    | none => simp [limpiar_base]
    | some lv =>
      rcases h with h | h | h
      · exact absurd h (by simp)
      · exact absurd h (by simp)
      · have hl : pyStrip lv = "" := h lv rfl
        simp [limpiar_base, hl]

/-- C5 counterexample: a dedup_por_tienda.py row whose store cell is
whitespace only — empty once normalized — is not excluded: it contributes the
pair ("", "http://x"). -/
theorem C5_fila_con_tienda_vacia_sobrevive :
    pyStrip " " = "" ∧ limpiar_base [(some " ", some "http://x")] = [("", "http://x")] := by
  constructor <;> decide

/-- C5 amended: rows with a missing store or missing link and rows whose link
trims to the empty string contribute nothing and raise no error, and every
extracted pair has a non-empty link; in extraer_tienda_links.py a row is
dropped when its store value is missing or exactly the empty string or no URL
was detected; but a row whose store is non-empty whitespace is kept by both
scripts and yields a pair whose store is empty after normalization. -/
theorem C5_filas_malformadas_excluidas :
    (∀ (f : Option String × Option String)
        (filas1 filas2 : List (Option String × Option String)),
      (f.1 = none ∨ f.2 = none ∨ (∀ l, f.2 = some l → pyStrip l = "")) →
      limpiar_base (filas1 ++ f :: filas2) = limpiar_base (filas1 ++ filas2)) ∧
    (∀ filas, ∀ p ∈ limpiar_base filas, p.2 ≠ "") ∧
    (∀ c : Celda, procesar_fila none c = none ∧ procesar_fila (some "") c = none) := by
  refine ⟨?_, ?_, ?_⟩
  · intro f filas1 filas2 hf
    rw [limpiar_base_append, limpiar_base_append, limpiar_base_cons_mala f hf]
  · intro filas p hp
    exact of_decide_eq_true (List.mem_filter.mp hp).2
  · intro c
    constructor
    · cases h : url_detectada c <;> simp [procesar_fila, h]
    · cases h : url_detectada c <;> simp [procesar_fila, h]

/-- Witness for the amended C5: a row with a missing link disappears, an
extracted pair has a non-empty link, and a row with a missing store yields no
pair. -/
theorem C5_filas_malformadas_excluidas_witness :
    limpiar_base [(some "A", none), (some "B", some "http://y")] =
      limpiar_base [(some "B", some "http://y")] ∧
    ("B", "http://y").2 ≠ "" ∧
    procesar_fila none ⟨some "http://t", none⟩ = none :=
  ⟨C5_filas_malformadas_excluidas.1 (some "A", none) [] [(some "B", some "http://y")]
      (Or.inr (Or.inl rfl)),
    C5_filas_malformadas_excluidas.2.1 [(some "B", some "http://y")] ("B", "http://y")
      (by decide),
    (C5_filas_malformadas_excluidas.2.2 ⟨some "http://t", none⟩).1⟩

/-- Modelled from the spec: the SetComparator `compare` of the interactive
app, whose implementation is not present under src (app_links.py carries only
its header comment).  Per the spec it returns matched = A ∩ B, onlyA = A − B,
onlyB = B − A, each as a lexicographically sorted sequence without
duplicates. -/
def compare_tiendas (A B : List String) :
    List String × List String × List String :=
  (List.insertionSort tiendaLe (drop_duplicates (A.filter (fun a => decide (a ∈ B)))),
   List.insertionSort tiendaLe (drop_duplicates (A.filter (fun a => decide (a ∉ B)))),
   List.insertionSort tiendaLe (drop_duplicates (B.filter (fun b => decide (b ∉ A)))))

theorem mem_sorted_dd_filter (l : List String) (p : String → Bool) (s : String) :
    s ∈ List.insertionSort tiendaLe (drop_duplicates (l.filter p)) ↔ s ∈ l ∧ p s = true := by
  rw [List.mem_insertionSort, mem_drop_duplicates, List.mem_filter]

theorem sorted_nodup_sorted_dd_filter (l : List String) (p : String → Bool) :
    (List.insertionSort tiendaLe (drop_duplicates (l.filter p))).Sorted (· ≤ ·) ∧
      (List.insertionSort tiendaLe (drop_duplicates (l.filter p))).Nodup := by
  constructor
  · exact List.sorted_insertionSort tiendaLe (drop_duplicates (l.filter p))
  · exact (List.perm_insertionSort tiendaLe _).nodup_iff.mpr (nodup_drop_duplicates _)

/-- C6: compare returns matched = A ∩ B, onlyA = A − B and onlyB = B − A as
lexicographically sorted duplicate-free sequences; matched together with
onlyA is disjoint from onlyB, and the three parts together cover exactly
A ∪ B. -/
theorem C6_compare_tiendas_particion :
    ∀ A B : List String,
      ((compare_tiendas A B).1.Sorted (· ≤ ·) ∧ (compare_tiendas A B).1.Nodup) ∧
      ((compare_tiendas A B).2.1.Sorted (· ≤ ·) ∧ (compare_tiendas A B).2.1.Nodup) ∧
      ((compare_tiendas A B).2.2.Sorted (· ≤ ·) ∧ (compare_tiendas A B).2.2.Nodup) ∧
      (∀ s, s ∈ (compare_tiendas A B).1 ↔ s ∈ A ∧ s ∈ B) ∧
      (∀ s, s ∈ (compare_tiendas A B).2.1 ↔ s ∈ A ∧ s ∉ B) ∧
      (∀ s, s ∈ (compare_tiendas A B).2.2 ↔ s ∈ B ∧ s ∉ A) ∧
      (∀ s, s ∈ (compare_tiendas A B).1 ∨ s ∈ (compare_tiendas A B).2.1 →
        s ∉ (compare_tiendas A B).2.2) ∧
      (∀ s, (s ∈ (compare_tiendas A B).1 ∨ s ∈ (compare_tiendas A B).2.1 ∨
          s ∈ (compare_tiendas A B).2.2) ↔ (s ∈ A ∨ s ∈ B)) := by
  intro A B
  have hm : ∀ s, s ∈ (compare_tiendas A B).1 ↔ s ∈ A ∧ s ∈ B := by
    intro s
    rw [compare_tiendas]
    rw [mem_sorted_dd_filter]
    simp
  have hoa : ∀ s, s ∈ (compare_tiendas A B).2.1 ↔ s ∈ A ∧ s ∉ B := by
    intro s
    rw [compare_tiendas]
    rw [mem_sorted_dd_filter]
    simp
  have hob : ∀ s, s ∈ (compare_tiendas A B).2.2 ↔ s ∈ B ∧ s ∉ A := by
    intro s
    rw [compare_tiendas]
    rw [mem_sorted_dd_filter]
    simp
  refine ⟨sorted_nodup_sorted_dd_filter A _, sorted_nodup_sorted_dd_filter A _,
    sorted_nodup_sorted_dd_filter B _, hm, hoa, hob, ?_, ?_⟩
  · intro s hs hsb
    rcases (hob s).mp hsb with ⟨_, hsa⟩
    rcases hs with hs | hs
    · exact hsa ((hm s).mp hs).1
    · exact hsa ((hoa s).mp hs).1
  · intro s
    rw [hm, hoa, hob]
    by_cases ha : s ∈ A <;> by_cases hb : s ∈ B <;> simp [ha, hb]

/-- Witness for C6 on Scenario 2: the three parts are computed exactly and
Store B, being matched, is not in onlyB. -/
theorem C6_compare_tiendas_particion_witness :
    compare_tiendas ["Store A", "Store B"] ["Store B", "Store C"] =
      (["Store B"], ["Store A"], ["Store C"]) ∧
    "Store B" ∉ (compare_tiendas ["Store A", "Store B"] ["Store B", "Store C"]).2.2 :=
  ⟨by decide,
    (C6_compare_tiendas_particion ["Store A", "Store B"] ["Store B", "Store C"]).2.2.2.2.2.2.1
      "Store B" (Or.inl (by decide))⟩
